import Mathlib

/-!
Verification of `src/export.py`, a tool that exports the tracked files of a
git repository as a zip archive or an XML document.

The embedding models the external collaborators (the git tool, the process
filesystem, the Python exception classes raised by `subprocess.run`) as
explicit data, and translates each function of the source file into a pure
Lean function over that data.
-/

namespace Export

/-- Python exception values that the program can let propagate.
`subprocess.run` with `check=True` raises `subprocess.CalledProcessError`
(a subclass of `SubprocessError`, NOT of `OSError`) on a non-zero exit,
and raises `FileNotFoundError` (a subclass of `OSError`, whose alias is
`EnvironmentError`) when the executable or the `cwd` directory is missing. -/
inductive PyError where
  | fileNotFoundError : String → PyError
  | calledProcessError : Int → PyError
deriving DecidableEq, Repr

/-- Whether a Python exception value is an instance of `EnvironmentError`
(the Python 3 alias of `OSError`). `FileNotFoundError` is; the
`subprocess.CalledProcessError` raised on a non-zero exit is not. -/
def PyError.isEnvironmentError : PyError → Bool
  | .fileNotFoundError _ => true
  | .calledProcessError _ => false

/-- State of the git repository as seen from the `repo_path` the program is
invoked on: whether that path is inside a repository, the paths the index
tracks, the on-disk untracked paths split by whether the standard ignore
rules match them, and the toplevel directory reported by
`git rev-parse --show-toplevel` (followed by the trailing newline that the
tool prints, which the source strips). -/
structure GitRepo where
  isRepo : Bool
  tracked : List String
  untrackedNotIgnored : List String
  untrackedIgnored : List String
  toplevel : String

/-- The host environment around the git invocations: whether the `git`
executable can be found at all. -/
structure GitEnv where
  gitAvailable : Bool

/-- The two `git ls-files` flags the source may append. -/
inductive GitFlag where
  | others
  | excludeStandard
deriving DecidableEq, Repr

/-- Semantics of `git ls-files` per the git documentation: with no flags it
lists the files recorded in the index (the tracked files); with `--others`
it lists ONLY the untracked files instead, and `--exclude-standard` then
drops the ones matched by the standard ignore rules. A missing executable
raises `FileNotFoundError`; a non-zero exit under `check=True` raises
`CalledProcessError`. -/
def git_ls_files (env : GitEnv) (repo : GitRepo) (flags : List GitFlag) :
    Except PyError (List String) :=
  if env.gitAvailable = false then .error (.fileNotFoundError ("git"))
  else if repo.isRepo = false then .error (.calledProcessError 128)
  else .ok (if flags.contains GitFlag.others then
      (if flags.contains GitFlag.excludeStandard then repo.untrackedNotIgnored
       else repo.untrackedNotIgnored ++ repo.untrackedIgnored)
    else repo.tracked)

/-- Semantics of `git rev-parse --show-toplevel` under `check=True`: the
toplevel path on success, the same two failure modes as `git ls-files`. -/
def git_rev_parse_show_toplevel (env : GitEnv) (repo : GitRepo) :
    Except PyError String :=
  if env.gitAvailable = false then .error (.fileNotFoundError ("git"))
  else if repo.isRepo = false then .error (.calledProcessError 128)
  else .ok repo.toplevel

instance {ε α : Type} [DecidableEq ε] [DecidableEq α] : DecidableEq (Except ε α) := fun a b =>
  match a, b with
  | .error x, .error y =>
    if h : x = y then isTrue (by rw [h]) else isFalse (by intro hc; injection hc; contradiction)
  | .error _, .ok _ => isFalse (fun hc => Except.noConfusion hc)
  | .ok _, .error _ => isFalse (fun hc => Except.noConfusion hc)
  | .ok x, .ok y =>
    if h : x = y then isTrue (by rw [h]) else isFalse (by intro hc; injection hc; contradiction)

/-- One regular file on disk: its raw bytes, its modification time (which
`zipfile.ZipFile.write` copies into the date_time field of the entry it
stores), and the outcome of opening and reading it as UTF-8 text
(`Except.error` carries the message of the exception that the read or the
decode raised). -/
structure FileData where
  bytes : String
  mtime : Nat
  readText : Except String String
deriving DecidableEq, Repr

/-- A filesystem view: the regular file found at a path, or `none` when the
path is missing or is not a regular file (`os.path.isfile` is false). -/
def FS : Type := String → Option FileData

/-- Translation of `os.path.isfile`. -/
def isfile (fs : FS) (p : String) : Bool := (fs p).isSome

/-- Translation of `get_git_files` (src/export.py lines 9-17): build the
command `git ls-files`, appending `--others --exclude-standard` exactly when
`include_untracked` is set, run it with `check=True`, and split its output
into lines. -/
def get_git_files (env : GitEnv) (repo : GitRepo) (include_untracked : Bool) :
    Except PyError (List String) :=
  let flags := if include_untracked then [GitFlag.others, GitFlag.excludeStandard] else []
  git_ls_files env repo flags

/-- One entry of the zip container written by `zipfile.ZipFile.write`: the
arcname (the path as given), the date_time stamp copied from the stat of
the source file, and the stored bytes. -/
structure ZipEntry where
  name : String
  date_time : Nat
  data : String
deriving DecidableEq, Repr

/-- Translation of `create_zip` (src/export.py lines 19-24): for each listed
path, in order, if `os.path.isfile` holds then write the file into the
archive under its given path. -/
def create_zip (fs : FS) (files : List String) : List ZipEntry :=
  files.filterMap fun file =>
    (fs file).map fun d => { name := file, date_time := d.mtime, data := d.bytes }

/-- One `file` element of the XML document: its `path` attribute, and the
text of its `content` child element when that child was created (`none`
when the element was left without a content child). -/
structure FileNode where
  path : String
  content : Option String
deriving DecidableEq, Repr

/-- The text stored in the content element: the decoded text on success, or
the placeholder built by the `except` clause of `create_xml` on a read or
decode failure. -/
def readContent (d : FileData) : String :=
  match d.readText with
  | .ok c => c
  | .error e => "Error reading file: " ++ e

/-- Translation of `create_xml` (src/export.py lines 26-41): one `file`
element per listed path in order, carrying the path attribute; when
`os.path.isfile` holds, a `content` child is attached whose text is the
decoded file text or the error placeholder. -/
def create_xml (fs : FS) (files : List String) : List FileNode :=
  files.map fun file =>
    match fs file with
    | some d => { path := file, content := some (readContent d) }
    | none => { path := file, content := none }

/-- Whitespace characters removed by the Python `str.strip` method (the
ones that can occur in git output). -/
def isStripChar (c : Char) : Bool := c == ' ' || c == '\n' || c == '\t' || c == '\r'

/-- Translation of the Python `str.strip` method with no argument: drop
whitespace at both ends. -/
def pyStrip (s : String) : String :=
  String.mk (((s.data.dropWhile isStripChar).reverse.dropWhile isStripChar).reverse)

/-- Translation of `os.path.basename`: the part after the final slash. -/
def basename (p : String) : String :=
  String.mk ((p.data.reverse.takeWhile (fun c => c != '/')).reverse)

/-- Translation of `get_repo_name` (src/export.py lines 43-47): run
`git rev-parse --show-toplevel` with `check=True`, strip the output, and
take its basename. -/
def get_repo_name (env : GitEnv) (repo : GitRepo) : Except PyError String :=
  (git_rev_parse_show_toplevel env repo).map fun s => basename (pyStrip s)

/-- The two values accepted by the `--format` option. -/
inductive Fmt where
  | zip
  | xml
deriving DecidableEq, Repr

/-- The extension string of a format, as interpolated into the output
filename `f-string`. -/
def Fmt.ext : Fmt → String
  | .zip => "zip"
  | .xml => "xml"

/-- The parsed command-line arguments (argparse result): the positional
repository path, the optional format, and the two flags. -/
structure Args where
  path : String
  format : Option Fmt
  untracked : Bool
  info : Bool

/-- Resolution of a relative path against a directory, as the OS performs it
for the process working directory when `os.path.isfile` and `open` receive
a bare relative path. -/
def resolve (cwd : String) (p : String) : String := cwd ++ "/" ++ p

/-- The filesystem view that a process whose working directory is `cwd`
obtains when it passes bare relative paths to `os.path.isfile` and `open`:
the disk keyed by absolute path, consulted at the cwd-resolved path. -/
def fsFrom (disk : String → Option FileData) (cwd : String) : FS :=
  fun p => disk (resolve cwd p)

/-- The world a single invocation runs in: the git environment, the git
state at the repository path given on the command line, the disk keyed by
absolute paths, and the working directory of the process. -/
structure World where
  env : GitEnv
  repo : GitRepo
  disk : String → Option FileData
  cwd : String

/-- Observable steps of one run of `main`, in the order performed. The
branch at src/export.py lines 76-78 gets its own event so that its
reachability can be stated exactly. -/
inductive Event where
  | printUsage
  | runGetGitFiles
  | runGetRepoName
  | printLine : String → Event
  | printMissingFormatError
  | writeZip : List ZipEntry → String → Event
  | writeXml : List FileNode → String → Event
deriving DecidableEq, Repr

/-- Translation of `main` (src/export.py lines 54-93): the ordered trace of
observable steps, paired with the unhandled exception that terminated the
run, if any. Mirrors the source exactly: usage when neither format nor info
is given; in info mode list and print the files; the plain missing-format
message branch; otherwise resolve the repository name FIRST (line 81), then
list the files (line 85), then serialize with paths resolved against the
process working directory, then report. -/
def main (w : World) (args : Args) : List Event × Option PyError :=
  if args.format = none ∧ args.info = false then
    ([Event.printUsage], none)
  else if args.info = true then
    match get_git_files w.env w.repo args.untracked with
    | .error e => ([Event.runGetGitFiles], some e)
    | .ok files => (Event.runGetGitFiles :: files.map Event.printLine, none)
  else
    match args.format with
    | none => ([Event.printMissingFormatError], none)
    | some fmt =>
      match get_repo_name w.env w.repo with
      | .error e => ([Event.runGetRepoName], some e)
      | .ok repo_name =>
        let output_filename := repo_name ++ "." ++ fmt.ext
        match get_git_files w.env w.repo args.untracked with
        | .error e => ([Event.runGetRepoName, Event.runGetGitFiles], some e)
        | .ok files =>
          let fs := fsFrom w.disk w.cwd
          let writeEv : Event := match fmt with
            | .zip => Event.writeZip (create_zip fs files) output_filename
            | .xml => Event.writeXml (create_xml fs files) output_filename
          ([Event.runGetRepoName, Event.runGetGitFiles, writeEv,
            Event.printLine ("Files successfully exported to " ++ output_filename ++ ".")],
           none)

/-- The serialization step `main` performs for a given format: the zip
container or the document built from the listed files, written under the
resolved output filename. -/
def writeEvent (f : Fmt) (fs : FS) (files : List String) (out : String) : Event :=
  match f with
  | .zip => Event.writeZip (create_zip fs files) out
  | .xml => Event.writeXml (create_xml fs files) out

/-! Concrete data used by witnesses and counterexamples. -/

/-- Demo filesystem: one regular file `a.txt` with content `hello`. -/
def fsDemo : FS := fun p =>
  if p = "a.txt" then some { bytes := "hello", mtime := 3, readText := Except.ok "hello" }
  else none

/-- Demo git state: one tracked file, nothing untracked. The toplevel
string carries the trailing newline that the git invocation prints. -/
def repoDemo : GitRepo :=
  { isRepo := true, tracked := ["a.txt"], untrackedNotIgnored := [],
    untrackedIgnored := [], toplevel := "/repo/demo\n" }

/-- Demo path given to the program without being a git repository. -/
def repoNotGit : GitRepo :=
  { isRepo := false, tracked := [], untrackedNotIgnored := [],
    untrackedIgnored := [], toplevel := "" }

/-- Demo filesystem holding a file whose UTF-8 decoding fails. -/
def fsErr : FS := fun p =>
  if p = "bad.bin"
  then some { bytes := "simulated", mtime := 0, readText := Except.error "decode failure" }
  else none

/-- Demo disk keyed by absolute paths: the repository file lives under
the repository root, nothing lives under the working directory. -/
def diskDemo : String → Option FileData := fun p =>
  if p = "/repo/a.txt" then some { bytes := "hi", mtime := 0, readText := Except.ok "hi" }
  else none

/-- Demo world whose working directory differs from the repository path. -/
def wCross : World :=
  { env := { gitAvailable := true }, repo := repoDemo, disk := diskDemo, cwd := "/cwd" }

/-- Demo invocation: export the repository at `/repo` as a zip. -/
def argsCross : Args :=
  { path := "/repo", format := some Fmt.zip, untracked := false, info := false }

/-- Demo filesystem for the idempotence claim: file `a.txt` at mtime 0. -/
def fsTimeA : FS := fun p =>
  if p = "a.txt" then some { bytes := "x", mtime := 0, readText := Except.ok "x" } else none

/-- The same file contents as `fsTimeA` but a later mtime. -/
def fsTimeB : FS := fun p =>
  if p = "a.txt" then some { bytes := "x", mtime := 1, readText := Except.ok "x" } else none

/-- Agrees with `fsTimeA` on `a.txt` but differs away from the listed
files, so the idempotence witness is not a trivial equality of views. -/
def fsTimeC : FS := fun p =>
  if p = "a.txt" then some { bytes := "x", mtime := 0, readText := Except.ok "x" }
  else some { bytes := "y", mtime := 9, readText := Except.ok "y" }

/-! Shared helper lemmas. -/

lemma create_xml_map_path (fs : FS) (L : List String) :
    (create_xml fs L).map FileNode.path = L := by
  induction L with
  | nil => rfl
  | cons p t ih =>
    cases h : fs p <;> simp only [create_xml, List.map_cons, h] at ih ⊢ <;>
      simp_all [create_xml]

lemma create_zip_eq_nil (fs : FS) (L : List String) (h : ∀ p ∈ L, fs p = none) :
    create_zip fs L = [] := by
  rw [create_zip, List.filterMap_eq_nil_iff]
  intro a ha
  rw [h a ha]
  rfl

lemma create_xml_content_none (fs : FS) (L : List String) (h : ∀ p ∈ L, fs p = none) :
    ∀ n ∈ create_xml fs L, n.content = none := by
  intro n hn
  rw [create_xml, List.mem_map] at hn
  obtain ⟨p, hp, rfl⟩ := hn
  simp [h p hp]

lemma main_export_trace (w : World) (args : Args) (f : Fmt)
    (hfmt : args.format = some f) (hinfo : args.info = false) :
    (∃ e, get_repo_name w.env w.repo = Except.error e
        ∧ (main w args).1 = [Event.runGetRepoName])
    ∨ (∃ rn e, get_repo_name w.env w.repo = Except.ok rn
        ∧ get_git_files w.env w.repo args.untracked = Except.error e
        ∧ (main w args).1 = [Event.runGetRepoName, Event.runGetGitFiles])
    ∨ (∃ rn files, get_repo_name w.env w.repo = Except.ok rn
        ∧ get_git_files w.env w.repo args.untracked = Except.ok files
        ∧ (main w args).1 = [Event.runGetRepoName, Event.runGetGitFiles,
            writeEvent f (fsFrom w.disk w.cwd) files (rn ++ "." ++ f.ext),
            Event.printLine
              ("Files successfully exported to " ++ (rn ++ "." ++ f.ext) ++ ".")]) := by
  have h1 : ¬(args.format = none ∧ args.info = false) := by simp [hfmt]
  have h2 : ¬(args.info = true) := by simp [hinfo]
  unfold main
  rw [if_neg h1, if_neg h2, hfmt]
  rcases hn : get_repo_name w.env w.repo with e | rn
  · exact Or.inl ⟨e, rfl, rfl⟩
  · rcases hg : get_git_files w.env w.repo args.untracked with e | files
    · exact Or.inr (Or.inl ⟨rn, e, rfl, rfl, rfl⟩)
    · refine Or.inr (Or.inr ⟨rn, files, rfl, rfl, ?_⟩)
      cases f <;> rfl

lemma main_usage_trace (w : World) (args : Args)
    (hfmt : args.format = none) (hinfo : args.info = false) :
    (main w args).1 = [Event.printUsage] := by
  unfold main
  rw [if_pos ⟨hfmt, hinfo⟩]

lemma main_info_trace (w : World) (args : Args) (hinfo : args.info = true) :
    (main w args).1 = Event.runGetGitFiles ::
      (match get_git_files w.env w.repo args.untracked with
       | .error _ => []
       | .ok files => files.map Event.printLine) := by
  have h1 : ¬(args.format = none ∧ args.info = false) := by simp [hinfo]
  unfold main
  rw [if_neg h1, if_pos hinfo]
  rcases hg : get_git_files w.env w.repo args.untracked with e | files <;> rfl

lemma map_printLine_contains_false (files : List String) :
    (files.map Event.printLine).contains Event.printMissingFormatError = false := by
  induction files with
  | nil => rfl
  | cons a t ih => simp [List.contains_cons, ih]

/-! Claim theorems. -/

/-- C1: evidence for the code bug. With `include_untracked = true` the
source runs `git ls-files --others --exclude-standard`, which lists ONLY
untracked files, so a tracked file is dropped from the result, although the
spec (and the option help text, `Include untracked files`) requires every
tracked path always to be included. At a repository with one tracked file
and no untracked files, the untracked listing comes back empty. -/
theorem get_git_files_untracked_drops_tracked :
    get_git_files { gitAvailable := true } repoDemo true = Except.ok []
    ∧ "a.txt" ∈ repoDemo.tracked := by
  exact ⟨rfl, by simp [repoDemo]⟩

/-- C2: the zip container holds exactly the listed paths that are regular
files on disk, in list order, each entry storing the bytes of its source
file, and the empty list yields the empty container without error. -/
theorem create_zip_entries (fs : FS) (L : List String) :
    (create_zip fs L).map ZipEntry.name = L.filter (fun p => isfile fs p)
    ∧ (∀ e ∈ create_zip fs L, ∃ d, fs e.name = some d ∧ e.data = d.bytes)
    ∧ create_zip fs ([] : List String) = [] := by
  refine ⟨?_, ?_, rfl⟩
  · induction L with
    | nil => rfl
    | cons p t ih =>
      cases h : fs p with
      | none =>
        simpa [create_zip, List.filterMap_cons, h, isfile, List.filter_cons] using ih
      | some d =>
        simpa [create_zip, List.filterMap_cons, h, isfile, List.filter_cons] using ih
  · intro e he
    rw [create_zip, List.mem_filterMap] at he
    obtain ⟨a, _, hfa⟩ := he
    cases h : fs a with
    | none => rw [h] at hfa; cases hfa
    | some d =>
      rw [h] at hfa
      obtain rfl : ({ name := a, date_time := d.mtime, data := d.bytes } : ZipEntry) = e := by
        simpa using hfa
      exact ⟨d, h, rfl⟩

/-- Witness for C2 at a concrete filesystem and file list: only the
existing regular file `a.txt` becomes an entry. -/
theorem create_zip_entries_witness :
    (create_zip fsDemo ["a.txt", "b.txt"]).map ZipEntry.name
      = List.filter (fun p => isfile fsDemo p) ["a.txt", "b.txt"] :=
  (create_zip_entries fsDemo ["a.txt", "b.txt"]).1

/-- C3: the document has exactly one node per listed path, in list order,
each carrying that path as its attribute, and a node has a content child
exactly when its path is a regular file, so a missing listed path (content
`none`) stays distinguishable from an existing empty file (content
`some` of the empty string). -/
theorem create_xml_nodes (fs : FS) (L : List String) :
    (create_xml fs L).map FileNode.path = L
    ∧ (create_xml fs L).length = L.length
    ∧ ∀ n ∈ create_xml fs L,
        n.content.isSome = isfile fs n.path
        ∧ (fs n.path = none → n.content = none)
        ∧ ∀ d, fs n.path = some d → n.content = some (readContent d) := by
  refine ⟨create_xml_map_path fs L, ?_, ?_⟩
  · simpa using congrArg List.length (create_xml_map_path fs L)
  · intro n hn
    rw [create_xml, List.mem_map] at hn
    obtain ⟨p, hp, rfl⟩ := hn
    cases h : fs p with
    | none => simp [h, isfile]
    | some d => simp [h, isfile]

/-- Witness for C3 at a concrete filesystem and file list: one node per
listed path in order, the missing path included. -/
theorem create_xml_nodes_witness :
    (create_xml fsDemo ["a.txt", "missing.txt"]).map FileNode.path
      = ["a.txt", "missing.txt"] :=
  (create_xml_nodes fsDemo ["a.txt", "missing.txt"]).1

/-- C4: both serializers test existence and read content through the bare
relative path, which the OS resolves against the working directory of the
process, not against the repository path: when the working directory
differs from the repository path and the listed files live only under the
repository path, the archive written by `main` has no entries and no
document node gets a content child. -/
theorem serializers_resolve_against_cwd (w : World) (args : Args) (f : Fmt)
    (files : List String) (hfmt : args.format = some f) (hinfo : args.info = false)
    (hfiles : get_git_files w.env w.repo args.untracked = Except.ok files)
    (hdiff : w.cwd ≠ args.path)
    (hrepo : ∀ p ∈ files, (w.disk (resolve args.path p)).isSome = true)
    (hcwd : ∀ p ∈ files, w.disk (resolve w.cwd p) = none) :
    ∀ ev ∈ (main w args).1,
      (∀ es out, ev = Event.writeZip es out → es = [])
      ∧ (∀ ns out, ev = Event.writeXml ns out → ∀ n ∈ ns, n.content = none) := by
  have hznil : create_zip (fsFrom w.disk w.cwd) files = [] :=
    create_zip_eq_nil (fsFrom w.disk w.cwd) files (fun p hp => hcwd p hp)
  have hxnil : ∀ n ∈ create_xml (fsFrom w.disk w.cwd) files, n.content = none :=
    create_xml_content_none (fsFrom w.disk w.cwd) files (fun p hp => hcwd p hp)
  intro ev hev
  rcases main_export_trace w args f hfmt hinfo with
    ⟨e, hn, ht⟩ | ⟨rn, e, hn, hg, ht⟩ | ⟨rn, files2, hn, hg, ht⟩
  · rw [ht] at hev
    simp only [List.mem_singleton] at hev
    subst hev
    exact ⟨fun es out h => Event.noConfusion h, fun ns out h => Event.noConfusion h⟩
  · rw [ht] at hev
    simp only [List.mem_cons, List.not_mem_nil, or_false] at hev
    rcases hev with rfl | rfl
    · exact ⟨fun es out h => Event.noConfusion h, fun ns out h => Event.noConfusion h⟩
    · exact ⟨fun es out h => Event.noConfusion h, fun ns out h => Event.noConfusion h⟩
  · rw [hg] at hfiles
    injection hfiles with hf2
    subst hf2
    rw [ht] at hev
    simp only [List.mem_cons, List.not_mem_nil, or_false] at hev
    clear ht hg hn
    rcases hev with rfl | rfl | rfl | rfl
    · exact ⟨fun es out h => Event.noConfusion h, fun ns out h => Event.noConfusion h⟩
    · exact ⟨fun es out h => Event.noConfusion h, fun ns out h => Event.noConfusion h⟩
    · cases f with
      | zip =>
        refine ⟨?_, ?_⟩
        · intro es out h
          injection h with h1 h2
          rw [← h1]
          exact hznil
        · intro ns out h
          exact Event.noConfusion h
      | xml =>
        refine ⟨?_, ?_⟩
        · intro es out h
          exact Event.noConfusion h
        · intro ns out h
          injection h with h1 h2
          intro n hn2
          rw [← h1] at hn2
          exact hxnil n hn2
    · exact ⟨fun es out h => Event.noConfusion h, fun ns out h => Event.noConfusion h⟩

/-- Witness for C4: the concrete cross-directory world produces an empty
zip container even though the listed file exists under the repository. -/
theorem serializers_resolve_against_cwd_witness :
    (main wCross argsCross).1
      = [Event.runGetRepoName, Event.runGetGitFiles, Event.writeZip [] ("demo.zip"),
         Event.printLine ("Files successfully exported to demo.zip.")]
    ∧ ([] : List ZipEntry) = [] :=
  ⟨by decide,
   ((serializers_resolve_against_cwd wCross argsCross Fmt.zip ["a.txt"] rfl rfl
        (by decide) (by decide) (by decide) (by decide))
      (Event.writeZip [] ("demo.zip")) (by decide)).1 [] ("demo.zip") rfl⟩

/-- C5: when a listed path is a regular file whose read or decode fails,
the node still gets a content child holding the human-readable error
placeholder, and every other listed path is still serialized (the document
keeps one node per listed path). -/
theorem create_xml_read_failure (fs : FS) (L : List String) (p : String)
    (d : FileData) (e : String) (hmem : p ∈ L) (hfs : fs p = some d)
    (herr : d.readText = Except.error e) :
    (create_xml fs L).map FileNode.path = L
    ∧ ∀ n ∈ create_xml fs L, n.path = p →
        n.content = some ("Error reading file: " ++ e) := by
  refine ⟨create_xml_map_path fs L, ?_⟩
  intro n hn hp
  rw [create_xml, List.mem_map] at hn
  obtain ⟨q, hq, rfl⟩ := hn
  cases h : fs q with
  | none =>
    simp only [h] at hp
    subst hp
    rw [h] at hfs
    cases hfs
  | some d2 =>
    simp only [h] at hp ⊢
    subst hp
    rw [h] at hfs
    injection hfs with hd
    subst hd
    simp [readContent, herr]

/-- Witness for C5: the unreadable file gets the placeholder content and
the export still produces its node. -/
theorem create_xml_read_failure_witness :
    create_xml fsErr ["bad.bin"]
      = [{ path := "bad.bin", content := some ("Error reading file: decode failure") }]
    ∧ ({ path := "bad.bin", content := some ("Error reading file: decode failure") }
        : FileNode).content = some ("Error reading file: " ++ "decode failure") :=
  ⟨by decide,
   (create_xml_read_failure fsErr ["bad.bin"] "bad.bin"
      { bytes := "simulated", mtime := 0, readText := Except.error "decode failure" }
      "decode failure" (by decide) (by decide) rfl).2
    { path := "bad.bin", content := some ("Error reading file: decode failure") }
    (by decide) rfl⟩

/-- C6 counterexample: when the path is not inside a repository the git
invocation exits non-zero and `check=True` raises
`subprocess.CalledProcessError`, which is not an `EnvironmentError`
(`OSError`), so the claim that both failure causes surface as
`EnvironmentError` is false at this input. -/
theorem git_failure_not_environment_error :
    get_git_files { gitAvailable := true } repoNotGit false
      = Except.error (PyError.calledProcessError 128)
    ∧ get_repo_name { gitAvailable := true } repoNotGit
      = Except.error (PyError.calledProcessError 128)
    ∧ (PyError.calledProcessError 128).isEnvironmentError = false :=
  ⟨rfl, rfl, rfl⟩

/-- The exception the two git helpers let propagate: `FileNotFoundError`
when the git executable is missing, `CalledProcessError` from the non-zero
exit otherwise. -/
def expectedGitError (env : GitEnv) : PyError :=
  if env.gitAvailable = false then PyError.fileNotFoundError ("git")
  else PyError.calledProcessError 128

/-- C6 amended: both `get_git_files` and `get_repo_name` fail when the git
tool is unavailable or the path is not inside a repository, with the same
propagated exception, but that exception is an `EnvironmentError` exactly
in the unavailable-tool case; the non-zero exit of an available tool
raises `CalledProcessError`, which is not an `EnvironmentError`. -/
theorem git_failure_modes (env : GitEnv) (repo : GitRepo) (b : Bool)
    (h : env.gitAvailable = false ∨ (env.gitAvailable = true ∧ repo.isRepo = false)) :
    get_git_files env repo b = Except.error (expectedGitError env)
    ∧ get_repo_name env repo = Except.error (expectedGitError env)
    ∧ ((expectedGitError env).isEnvironmentError = true ↔ env.gitAvailable = false) := by
  rcases h with h | ⟨h1, h2⟩
  · refine ⟨?_, ?_, ?_⟩
    · simp [get_git_files, git_ls_files, expectedGitError, h]
    · simp [get_repo_name, git_rev_parse_show_toplevel, expectedGitError, h, Except.map]
    · simp [expectedGitError, h, PyError.isEnvironmentError]
  · refine ⟨?_, ?_, ?_⟩
    · simp [get_git_files, git_ls_files, expectedGitError, h1, h2]
    · simp [get_repo_name, git_rev_parse_show_toplevel, expectedGitError, h1, h2, Except.map]
    · simp [expectedGitError, h1, PyError.isEnvironmentError]

/-- Witness for C6 at a concrete environment: available tool, path not a
repository. -/
theorem git_failure_modes_witness :
    get_git_files { gitAvailable := true } repoNotGit true
      = Except.error (expectedGitError { gitAvailable := true })
    ∧ get_repo_name { gitAvailable := true } repoNotGit
      = Except.error (expectedGitError { gitAvailable := true })
    ∧ ((expectedGitError { gitAvailable := true }).isEnvironmentError = true
        ↔ ({ gitAvailable := true } : GitEnv).gitAvailable = false) :=
  git_failure_modes { gitAvailable := true } repoNotGit true (Or.inr ⟨rfl, rfl⟩)

/-- C7: for a listed regular file whose text decodes successfully, the
content node of the document holds exactly the file text. -/
theorem create_xml_roundtrip (fs : FS) (L : List String) (p : String) (d : FileData)
    (c : String) (hfs : fs p = some d) (hok : d.readText = Except.ok c) :
    ∀ n ∈ create_xml fs L, n.path = p → n.content = some c := by
  intro n hn hp
  rw [create_xml, List.mem_map] at hn
  obtain ⟨q, hq, rfl⟩ := hn
  cases h : fs q with
  | none =>
    simp only [h] at hp
    subst hp
    rw [h] at hfs
    cases hfs
  | some d2 =>
    simp only [h] at hp ⊢
    subst hp
    rw [h] at hfs
    injection hfs with hd
    subst hd
    simp [readContent, hok]

/-- Witness for C7: the known file content comes back exactly. -/
theorem create_xml_roundtrip_witness :
    create_xml fsDemo ["a.txt"] = [{ path := "a.txt", content := some ("hello") }]
    ∧ ({ path := "a.txt", content := some ("hello") } : FileNode).content
      = some ("hello") :=
  ⟨by decide,
   create_xml_roundtrip fsDemo ["a.txt"] "a.txt"
     { bytes := "hello", mtime := 3, readText := Except.ok "hello" } "hello" rfl rfl
     { path := "a.txt", content := some ("hello") } (by decide) rfl⟩

/-- C8 counterexample: two on-disk states with identical bytes and
identical decoded text for the listed file, but a different modification
time, give different zip containers, because `zipfile.ZipFile.write`
stores the stat mtime in each entry; so identical file contents alone do
not give byte-identical archive output. -/
theorem create_zip_not_determined_by_contents :
    ((fsTimeA "a.txt").map FileData.bytes = (fsTimeB "a.txt").map FileData.bytes)
    ∧ ((fsTimeA "a.txt").map FileData.readText = (fsTimeB "a.txt").map FileData.readText)
    ∧ decide (create_zip fsTimeA ["a.txt"] = create_zip fsTimeB ["a.txt"]) = false := by
  refine ⟨rfl, rfl, by decide⟩

/-- C8 amended, as two separately conditioned facts: a second run produces
an identical zip container when every listed file has the same bytes AND
the same modification time; and it produces an identical document tree as
soon as every listed file has the same text read outcome, with no
condition on modification times (the document embeds no timestamps). -/
theorem export_idempotent (fs1 fs2 : FS) (L : List String) :
    ((∀ p ∈ L, (fs1 p).map (fun d => (d.bytes, d.mtime))
        = (fs2 p).map (fun d => (d.bytes, d.mtime)))
      → create_zip fs1 L = create_zip fs2 L)
    ∧ ((∀ p ∈ L, (fs1 p).map FileData.readText = (fs2 p).map FileData.readText)
      → create_xml fs1 L = create_xml fs2 L) := by
  constructor
  · induction L with
    | nil => intro _; rfl
    | cons p t ih =>
      intro hzip
      have hp := hzip p (List.mem_cons_self p t)
      have iht := ih (fun q hq => hzip q (List.mem_cons_of_mem p hq))
      cases h1 : fs1 p with
      | none =>
        cases h2 : fs2 p with
        | none => simpa [create_zip, List.filterMap_cons, h1, h2] using iht
        | some d2 => rw [h1, h2] at hp; cases hp
      | some d1 =>
        cases h2 : fs2 p with
        | none => rw [h1, h2] at hp; cases hp
        | some d2 =>
          rw [h1, h2] at hp
          injection hp with hbt
          have hb : d1.bytes = d2.bytes := congrArg Prod.fst hbt
          have hm : d1.mtime = d2.mtime := congrArg Prod.snd hbt
          simp only [create_zip, List.filterMap_cons, h1, h2, Option.map_some']
          rw [hb, hm]
          exact congrArg (List.cons _) iht
  · induction L with
    | nil => intro _; rfl
    | cons p t ih =>
      intro hxml
      have hp := hxml p (List.mem_cons_self p t)
      have iht := ih (fun q hq => hxml q (List.mem_cons_of_mem p hq))
      cases h1 : fs1 p with
      | none =>
        cases h2 : fs2 p with
        | none => simpa [create_xml, h1, h2] using iht
        | some d2 => rw [h1, h2] at hp; cases hp
      | some d1 =>
        cases h2 : fs2 p with
        | none => rw [h1, h2] at hp; cases hp
        | some d2 =>
          rw [h1, h2] at hp
          injection hp with hrt
          simp only [create_xml, List.map_cons, h1, h2]
          rw [show readContent d1 = readContent d2 by simp [readContent, hrt]]
          simpa [create_xml] using iht

/-- Witness for C8: the zip conjunct on two views that agree in bytes and
mtime on the listed file and differ elsewhere, and the xml conjunct on the
two views whose listed file differs ONLY in mtime, showing the document
output unchanged across the mtime change. -/
theorem export_idempotent_witness :
    create_zip fsTimeA ["a.txt"] = create_zip fsTimeC ["a.txt"]
    ∧ create_xml fsTimeA ["a.txt"] = create_xml fsTimeB ["a.txt"] :=
  ⟨(export_idempotent fsTimeA fsTimeC ["a.txt"]).1 (by decide),
   (export_idempotent fsTimeA fsTimeB ["a.txt"]).2 (by decide)⟩

/-- C9 counterexample: in export mode the program resolves the repository
name (src/export.py line 81) before listing the files (line 85): in the
trace of a successful export the name resolution sits at index 0 and the
file listing at index 1, so the file listing IS performed after the
output-filename resolution, contrary to the claimed order. -/
theorem main_lists_files_after_resolving_name :
    (main wCross argsCross).1.indexOf Event.runGetRepoName = 0
    ∧ (main wCross argsCross).1.indexOf Event.runGetGitFiles = 1
    ∧ Event.runGetRepoName ∈ (main wCross argsCross).1
    ∧ Event.runGetGitFiles ∈ (main wCross argsCross).1 := by
  decide

/-- C9 amended: in export mode the steps run in the order resolve the
output filename from the repository name, then list the files, then
serialize, then report; the file listing always happens after the
output-filename resolution. -/
theorem main_export_order (w : World) (args : Args) (f : Fmt)
    (hfmt : args.format = some f) (hinfo : args.info = false) :
    (main w args).1 = [Event.runGetRepoName]
    ∨ (main w args).1 = [Event.runGetRepoName, Event.runGetGitFiles]
    ∨ ∃ ev s, (main w args).1
        = [Event.runGetRepoName, Event.runGetGitFiles, ev, Event.printLine s]
        ∧ ((∃ es out, ev = Event.writeZip es out) ∨ (∃ ns out, ev = Event.writeXml ns out)) := by
  cases f with
  | zip =>
    rcases main_export_trace w args Fmt.zip hfmt hinfo with
      ⟨e, _, ht⟩ | ⟨rn, e, _, _, ht⟩ | ⟨rn, files, _, _, ht⟩
    · exact Or.inl ht
    · exact Or.inr (Or.inl ht)
    · exact Or.inr (Or.inr ⟨_, _, ht, Or.inl ⟨_, _, rfl⟩⟩)
  | xml =>
    rcases main_export_trace w args Fmt.xml hfmt hinfo with
      ⟨e, _, ht⟩ | ⟨rn, e, _, _, ht⟩ | ⟨rn, files, _, _, ht⟩
    · exact Or.inl ht
    · exact Or.inr (Or.inl ht)
    · exact Or.inr (Or.inr ⟨_, _, ht, Or.inr ⟨_, _, rfl⟩⟩)

/-- Witness for C9 at the concrete export invocation. -/
theorem main_export_order_witness :
    (main wCross argsCross).1 = [Event.runGetRepoName]
    ∨ (main wCross argsCross).1 = [Event.runGetRepoName, Event.runGetGitFiles]
    ∨ ∃ ev s, (main wCross argsCross).1
        = [Event.runGetRepoName, Event.runGetGitFiles, ev, Event.printLine s]
        ∧ ((∃ es out, ev = Event.writeZip es out) ∨ (∃ ns out, ev = Event.writeXml ns out)) :=
  main_export_order wCross argsCross Fmt.zip rfl rfl

/-- C10: the branch printing the plain missing-format message
(src/export.py lines 76-78) is unreachable: every run with no format
either has the info flag set and returns after listing, or has neither
flag and returns after printing usage, so no trace of `main` contains
that print step. -/
theorem missing_format_branch_unreachable (w : World) (args : Args) :
    (main w args).1.contains Event.printMissingFormatError = false := by
  rcases hfmt : args.format with _ | f
  · cases hinfo : args.info
    · rw [main_usage_trace w args hfmt hinfo]
      rfl
    · rw [main_info_trace w args hinfo]
      rcases get_git_files w.env w.repo args.untracked with e | files
      · rfl
      · simp [List.contains_cons, map_printLine_contains_false files]
  · cases hinfo : args.info
    · rcases main_export_trace w args f hfmt hinfo with
        ⟨e, _, ht⟩ | ⟨rn, e, _, _, ht⟩ | ⟨rn, files, _, _, ht⟩
      · rw [ht]; rfl
      · rw [ht]; rfl
      · rw [ht]; cases f <;> rfl
    · rw [main_info_trace w args hinfo]
      rcases get_git_files w.env w.repo args.untracked with e | files
      · rfl
      · simp [List.contains_cons, map_printLine_contains_false files]

end Export
